import Mathlib

/-!
Verification development for the CoffeeBoard reference-board canvas
(`coffee_board.py`, `image_display.py`).  The Python source is shallowly
embedded: pure fragments become Lean functions over `ℚ` (the source's
float arithmetic carries no rounding-sensitive claims here, so exact
rationals model the intended real-number semantics), stateful code
becomes explicit state passing, and fallible code returns `Option` /
`Except`.  Filesystem and host effects (`os.path.exists`, pixmap writes,
`shutil.copy2`, `os.path.relpath`, user cancellation) are parameters of
the embedding, supplied as explicit environment functions.
-/

namespace CoffeeBoard

/-! ## Viewport transform (`CoffeeBoard.wheelEvent`, `mouseMoveEvent`)

A `QGraphicsView` transform with uniform scale `s` and translation
`(tx, ty)` maps a scene point `q` to the viewport point `s * q + t`;
`mapToScene p = (p - t) / s`.  `self.scale(f, f)` post-multiplies the
transform by a scaling (`s := s * f`, `t` unchanged) and
`self.translate(dx, dy)` post-multiplies by a translation
(`t := t + s * d`).  `scale_factor` is the class's cumulative zoom
scalar `Z`. -/

/-- View state: transform scale `s`, translation `(tx, ty)`, and the
cumulative `scale_factor` attribute `Z`. -/
structure ViewSt where
  s : ℚ
  tx : ℚ
  ty : ℚ
  Z : ℚ
  deriving Repr, DecidableEq

/-- `min_scale = 0.001` (class constant). -/
def min_scale : ℚ := 1 / 1000

/-- `max_scale = 100.0` (class constant). -/
def max_scale : ℚ := 100

/-- `QGraphicsView.mapToScene` for a transform with uniform scale and
translation: the scene point rendered at viewport point `p`. -/
def mapToScene (v : ViewSt) (p : ℚ × ℚ) : ℚ × ℚ :=
  ((p.1 - v.tx) / v.s, (p.2 - v.ty) / v.s)

/-- `CoffeeBoard.wheelEvent` (coffee_board.py lines 316-359): pick the
zoom factor from the wheel direction, scale the view, update and clamp
`scale_factor` (applying a correction scale on overshoot), then
translate so the scene point under the cursor stays fixed. -/
def wheelEvent (v : ViewSt) (p : ℚ × ℚ) (zoomIn : Bool) : ViewSt :=
  let zoom_factor : ℚ := if zoomIn then 23 / 20 else 20 / 23
  let old_pos := mapToScene v p
  -- self.scale(zoom_factor, zoom_factor); self.scale_factor *= zoom_factor
  let s1 := v.s * zoom_factor
  let z1 := v.Z * zoom_factor
  -- clamp scale_factor to min/max, correcting the view scale
  -- (the source assigns both in one branch; the two ifs share its condition)
  let s2 : ℚ :=
    if z1 < min_scale then s1 * (min_scale / z1)
    else if max_scale < z1 then s1 * (max_scale / z1)
    else s1
  let z2 : ℚ :=
    if z1 < min_scale then min_scale
    else if max_scale < z1 then max_scale
    else z1
  let v1 : ViewSt := { s := s2, tx := v.tx, ty := v.ty, Z := z2 }
  let new_pos := mapToScene v1 p
  -- self.translate(delta.x(), delta.y())
  let dx := new_pos.1 - old_pos.1
  let dy := new_pos.2 - old_pos.2
  { v1 with tx := v1.tx + v1.s * dx, ty := v1.ty + v1.s * dy }

/-- A wheel event: cursor position and zoom direction. -/
def applyWheelEvents (evts : List ((ℚ × ℚ) × Bool)) (v : ViewSt) : ViewSt :=
  evts.foldl (fun st e => wheelEvent st e.1 e.2) v

theorem wheelEvent_Z_mem (v : ViewSt) (p : ℚ × ℚ) (d : Bool) :
    min_scale ≤ (wheelEvent v p d).Z ∧ (wheelEvent v p d).Z ≤ max_scale := by
  simp only [wheelEvent, mapToScene]
  split_ifs with h1 h2 h3 h4 h5 <;>
    simp_all [min_scale, max_scale] <;> norm_num

/-- A zoom-in event at the upper zoom boundary leaves the whole view
state unchanged: `Z` stays `max_scale` and the pan translation moves by
exactly zero. -/
theorem wheelEvent_at_max (v : ViewSt) (p : ℚ × ℚ) (hZ : v.Z = max_scale) :
    wheelEvent v p true = v := by
  have hz1 : ¬ (v.Z * (23 / 20) < min_scale) := by
    rw [hZ]; norm_num [min_scale, max_scale]
  have hz2 : max_scale < v.Z * (23 / 20) := by
    rw [hZ]; norm_num [max_scale]
  have hs2 : v.s * (23 / 20) * (max_scale / (v.Z * (23 / 20))) = v.s := by
    rw [hZ]; norm_num [max_scale]; ring
  simp only [wheelEvent, mapToScene, if_pos, if_neg hz1, if_pos hz2, hs2]
  cases v with
  | mk s tx ty Z => simp_all

theorem wheelEvent_at_min (v : ViewSt) (p : ℚ × ℚ) (hZ : v.Z = min_scale) :
    wheelEvent v p false = v := by
  have hz1 : v.Z * (20 / 23) < min_scale := by
    rw [hZ]; norm_num [min_scale]
  have hs2 : v.s * (20 / 23) * (min_scale / (v.Z * (20 / 23))) = v.s := by
    rw [hZ]; norm_num [min_scale]; ring
  simp only [wheelEvent, mapToScene, if_pos hz1, Bool.false_eq_true, if_neg, hs2]
  cases v with
  | mk s tx ty Z => simp_all

theorem map_after_translate (s s2 tx x : ℚ)
    (h : s2 = 0 ↔ s = 0) :
    (x - (tx + s2 * ((x - tx) / s2 - (x - tx) / s))) / s2 = (x - tx) / s := by
  rcases eq_or_ne s 0 with h1 | h1
  · simp [h1, h.mpr h1]
  · have h2 : s2 ≠ 0 := fun hh => h1 (h.mp hh)
    field_simp
    ring

theorem wheelEvent_anchored (v : ViewSt) (p : ℚ × ℚ) (d : Bool) (hZ : 0 < v.Z) :
    mapToScene (wheelEvent v p d) p = mapToScene v p := by
  simp only [wheelEvent, mapToScene]
  set f : ℚ := if d = true then (23:ℚ) / 20 else 20 / 23 with hf
  have hfpos : (0:ℚ) < f := by rw [hf]; split <;> norm_num
  have hz1 : v.Z * f ≠ 0 := by positivity
  set s2 : ℚ :=
    if v.Z * f < min_scale then v.s * f * (min_scale / (v.Z * f))
    else if max_scale < v.Z * f then v.s * f * (max_scale / (v.Z * f))
    else v.s * f with hs2
  have hiff : s2 = 0 ↔ v.s = 0 := by
    rw [hs2]
    have h1 : min_scale / (v.Z * f) ≠ 0 := div_ne_zero (by norm_num [min_scale]) hz1
    have h2 : max_scale / (v.Z * f) ≠ 0 := div_ne_zero (by norm_num [max_scale]) hz1
    split_ifs <;> simp [mul_eq_zero, hfpos.ne', h1, h2]
  simp only [Prod.mk.injEq]
  exact ⟨map_after_translate v.s s2 v.tx p.1 hiff, map_after_translate v.s s2 v.ty p.2 hiff⟩

/-- **C3.** For every sequence of zoom wheel events, the zoom scalar
`scale_factor` lies within `[0.001, 100.0]` after each event; and a zoom
event issued while `Z` is exactly at a boundary, in the
boundary-exceeding direction, leaves `Z` unchanged and changes the pan
translation by exactly zero (in fact the whole view state is
unchanged). -/
theorem c3_zoom_clamping :
    (∀ (v : ViewSt) (evts : List ((ℚ × ℚ) × Bool)) (p : ℚ × ℚ) (d : Bool),
        min_scale ≤ (applyWheelEvents (evts ++ [(p, d)]) v).Z ∧
          (applyWheelEvents (evts ++ [(p, d)]) v).Z ≤ max_scale) ∧
    (∀ (v : ViewSt) (p : ℚ × ℚ), v.Z = max_scale → wheelEvent v p true = v) ∧
    (∀ (v : ViewSt) (p : ℚ × ℚ), v.Z = min_scale → wheelEvent v p false = v) := by
  refine ⟨?_, fun v p h => wheelEvent_at_max v p h,
    fun v p h => wheelEvent_at_min v p h⟩
  intro v evts p d
  have h : applyWheelEvents (evts ++ [(p, d)]) v
      = wheelEvent (applyWheelEvents evts v) p d := by
    simp [applyWheelEvents]
  rw [h]
  exact wheelEvent_Z_mem _ p d

theorem c3_zoom_clamping_witness :
    (min_scale ≤ (applyWheelEvents [((3, 4), true)] ⟨1, 0, 0, 1⟩).Z ∧
      (applyWheelEvents [((3, 4), true)] ⟨1, 0, 0, 1⟩).Z ≤ max_scale) ∧
    ((⟨2, 5, 7, max_scale⟩ : ViewSt).Z = max_scale ∧
      wheelEvent ⟨2, 5, 7, max_scale⟩ (3, 4) true = ⟨2, 5, 7, max_scale⟩) ∧
    ((⟨2, 5, 7, min_scale⟩ : ViewSt).Z = min_scale ∧
      wheelEvent ⟨2, 5, 7, min_scale⟩ (3, 4) false = ⟨2, 5, 7, min_scale⟩) :=
  ⟨c3_zoom_clamping.1 ⟨1, 0, 0, 1⟩ [] (3, 4) true,
    ⟨rfl, c3_zoom_clamping.2.1 ⟨2, 5, 7, max_scale⟩ (3, 4) rfl⟩,
    ⟨rfl, c3_zoom_clamping.2.2 ⟨2, 5, 7, min_scale⟩ (3, 4) rfl⟩⟩

/-- **C4.** For every zoom wheel event at cursor position `p` (in any
state with positive zoom scalar, as maintained by `c3_zoom_clamping`),
the scene coordinate that maps to `p` under the viewport transform
before the event equals the scene coordinate that maps to `p` after the
event — exactly, hence in particular to floating-point tolerance: zoom
is cursor-anchored. -/
theorem c4_cursor_anchored (v : ViewSt) (p : ℚ × ℚ) (d : Bool) (hZ : 0 < v.Z) :
    mapToScene (wheelEvent v p d) p = mapToScene v p :=
  wheelEvent_anchored v p d hZ

theorem c4_cursor_anchored_witness :
    (0 : ℚ) < (⟨2, 5, 7, 1⟩ : ViewSt).Z ∧
      mapToScene (wheelEvent ⟨2, 5, 7, 1⟩ (3, 4) true) (3, 4)
        = mapToScene ⟨2, 5, 7, 1⟩ (3, 4) :=
  ⟨by norm_num, c4_cursor_anchored ⟨2, 5, 7, 1⟩ (3, 4) true (by norm_num)⟩

/-! ## Item resize (`ImageDisplay.resize_image`, `_ResizeHandle.mouseMoveEvent`,
`CoffeeBoard.resize_selected_images`) -/

/-- The state of an `ImageDisplay` relevant to resizing: the original
pixmap's dimensions, the stored `current_scale`, and whether the item is
currently selected in the scene. -/
structure DispItem where
  w : ℚ
  h : ℚ
  current_scale : ℚ
  selected : Bool
  deriving Repr, DecidableEq

/-- `ImageDisplay.resize_image` (image_display.py lines 414-427): stores
`current_scale := scale_factor` with no clamping (the pixmap rescale and
handle repositioning are display-only). -/
def resize_image (it : DispItem) (scale_factor : ℚ) : DispItem :=
  { it with current_scale := scale_factor }

/-- `CoffeeBoard._resize_scales` (coffee_board.py line 128): the discrete
resize presets offered by the context menu. -/
def resizeScales : List ℚ := [1/4, 1/2, 3/4, 1, 3/2, 2, 3, 4]

/-- `CoffeeBoard.resize_selected_images` (coffee_board.py lines 868-882):
apply `resize_image scale` to every currently selected `ImageDisplay`. -/
def resize_selected_images (scale : ℚ) (items : List DispItem) : List DispItem :=
  items.map fun it => if it.selected then resize_image it scale else it

/-- Squared diagonal of the image's bounding box at the drag-start scale
(`original_diagonal ** 2` in `_ResizeHandle.mouseMoveEvent`, before the
square root). -/
def origDiagSq (it : DispItem) (start_scale : ℚ) : ℚ :=
  (it.w * start_scale) ^ 2 + (it.h * start_scale) ^ 2

/-- Squared distance from the image's top-left corner in scene space to
the current pointer scene position (`new_diagonal ** 2`). -/
def newDiagSq (top_left current_pos : ℚ × ℚ) : ℚ :=
  (current_pos.1 - top_left.1) ^ 2 + (current_pos.2 - top_left.2) ^ 2

/-- `_ResizeHandle.mouseMoveEvent` while dragging (image_display.py lines
83-115), given the two already-extracted Euclidean diagonal lengths
`D0 = original_diagonal` and `D1 = new_diagonal` (the square roots of
`origDiagSq` / `newDiagSq`; the link is stated as a hypothesis of the
claim theorem because `x ** 0.5` has no rational embedding): if
`original_diagonal > 0`, resize to `clamp((D1 / D0) * start_scale, 0.1,
10.0)`, written as in the source `max 0.1 (min 10.0 _)`. -/
def handleMouseMove (it : DispItem) (start_scale D0 D1 : ℚ) : DispItem :=
  if 0 < D0 then
    resize_image it (max (1/10) (min 10 (D1 / D0 * start_scale)))
  else it

/-- **C5.** Every interactive resize-handle drag move stores the scale
`clamp((D1/D0) * scale_at_drag_start, 0.1, 10.0)` where `D0` is the
Euclidean diagonal of the image at drag-start scale and `D1` the
Euclidean distance from the image's top-left scene corner to the
pointer; whereas a discrete preset resize from `_resize_scales` stores
exactly the requested scale on every selected item (unselected items
untouched), with no clamping applied — and indeed all presets already
lie inside `[0.1, 10.0]`. -/
theorem c5_resize_bounds :
    (∀ (it : DispItem) (s0 D0 D1 : ℚ) (tl cur : ℚ × ℚ),
        D0 ^ 2 = origDiagSq it s0 → D1 ^ 2 = newDiagSq tl cur → 0 < D0 →
        (handleMouseMove it s0 D0 D1).current_scale
          = max (1/10) (min 10 (D1 / D0 * s0))) ∧
    (∀ s ∈ resizeScales, ∀ (items : List DispItem) (i : ℕ)
        (hi : i < (resize_selected_images s items).length)
        (hi2 : i < items.length),
        (resize_selected_images s items).get ⟨i, hi⟩
          = if (items.get ⟨i, hi2⟩).selected
            then { items.get ⟨i, hi2⟩ with current_scale := s }
            else items.get ⟨i, hi2⟩) ∧
    (∀ s ∈ resizeScales, 1/10 ≤ s ∧ s ≤ 10) := by
  refine ⟨?_, ?_, ?_⟩
  · intro it s0 D0 D1 tl cur _ _ hpos
    simp [handleMouseMove, resize_image, hpos]
  · intro s _ items i hi hi2
    simp only [resize_selected_images, List.get_eq_getElem, List.getElem_map]
    split <;> simp [resize_image]
  · intro s hs
    fin_cases hs <;> norm_num

theorem c5_resize_bounds_witness :
    ((5 : ℚ) ^ 2 = origDiagSq ⟨3, 4, 1, true⟩ 1 ∧
      (10 : ℚ) ^ 2 = newDiagSq (0, 0) (6, 8) ∧ (0 : ℚ) < 5 ∧
      (handleMouseMove ⟨3, 4, 1, true⟩ 1 5 10).current_scale
        = max (1/10) (min 10 ((10 : ℚ) / 5 * 1))) ∧
    ((1/2 : ℚ) ∈ resizeScales ∧ (0 : ℕ) < 1 ∧
      (resize_selected_images (1/2) [⟨3, 4, 1, true⟩]).get ⟨0, by norm_num [resize_selected_images]⟩
        = ⟨3, 4, 1/2, true⟩) ∧
    ((1/2 : ℚ) ∈ resizeScales ∧ (1/10 : ℚ) ≤ 1/2 ∧ (1/2 : ℚ) ≤ 10) := by
  have hm : (1/2 : ℚ) ∈ resizeScales := by norm_num [resizeScales]
  refine ⟨⟨by norm_num [origDiagSq], by norm_num [newDiagSq], by norm_num, ?_⟩,
    ⟨hm, by norm_num, ?_⟩, ⟨hm, (c5_resize_bounds.2.2 (1/2) hm).1,
      (c5_resize_bounds.2.2 (1/2) hm).2⟩⟩
  · exact c5_resize_bounds.1 ⟨3, 4, 1, true⟩ 1 5 10 (0, 0) (6, 8)
      (by norm_num [origDiagSq]) (by norm_num [newDiagSq]) (by norm_num)
  · have h := c5_resize_bounds.2.1 (1/2) hm [⟨3, 4, 1, true⟩] 0
      (by norm_num [resize_selected_images]) (by norm_num)
    simpa using h

/-! ## Grid auto-layout (`CoffeeBoard._layout_images`) -/

/-- The loop body of `CoffeeBoard._layout_images` (coffee_board.py lines
601-634), traced over the list of item bounding-box sizes `(w, h)` with
the mutable state `x, y, max_row_height` and the enumeration index `i`;
`spacing = 10.0`, `cols = self.columns`.  Returns the positions assigned
by `item.setPos(x, y)`, in item order. -/
def layoutAux (cols : ℕ) : List (ℚ × ℚ) → ℚ → ℚ → ℚ → ℕ → List (ℚ × ℚ)
  | [], _, _, _, _ => []
  | (w, h) :: rest, x, y, maxR, i =>
    let maxR2 := max maxR h
    if (i + 1) % cols = 0 then
      (x, y) :: layoutAux cols rest 0 (y + maxR2 + 10) 0 (i + 1)
    else
      (x, y) :: layoutAux cols rest (x + w + 10) y maxR2 (i + 1)

/-- `CoffeeBoard._layout_images`: positions assigned to all tracked
items, starting from `x = y = 0`, `max_row_height = 0`. -/
def layoutImages (cols : ℕ) (sizes : List (ℚ × ℚ)) : List (ℚ × ℚ) :=
  layoutAux cols sizes 0 0 0 0

/-- Modelled from the spec (§4.4 reference algorithm): positions of one
row of items, walking left-to-right from `x`, advancing by
`item_width + spacing`. -/
def rowPositions (row : List (ℚ × ℚ)) (x y : ℚ) : List (ℚ × ℚ) :=
  match row with
  | [] => []
  | (w, _) :: rest => (x, y) :: rowPositions rest (x + w + 10) y

/-- Modelled from the spec (§4.4): the row height is the maximum
bounding-box height of the items placed in the row. -/
def rowHeight (row : List (ℚ × ℚ)) : ℚ :=
  row.foldl (fun m wh => max m wh.2) 0

/-- Modelled from the spec (§4.4 reference algorithm, `columns = 4`,
`spacing = 10`): chunk the items into rows of four in insertion order;
lay each row out left-to-right at the current `y`, then advance `y` by
the row's height plus the spacing. -/
def specLayout : List (ℚ × ℚ) → ℚ → List (ℚ × ℚ)
  | [], _ => []
  | a :: l, y =>
    rowPositions ((a :: l).take 4) 0 y ++
      specLayout ((a :: l).drop 4) (y + rowHeight ((a :: l).take 4) + 10)
  termination_by sizes _ => sizes.length
  decreasing_by simp; omega

theorem layoutAux_eq_specLayout :
    ∀ (sizes : List (ℚ × ℚ)) (y : ℚ) (m : ℕ),
      layoutAux 4 sizes 0 y 0 (4 * m) = specLayout sizes y
  | [], _, _ => by simp [layoutAux, specLayout]
  | [a], y, m => by
    obtain ⟨w, h⟩ := a
    have h1 : (4 * m + 1) % 4 = 1 := by omega
    simp [layoutAux, specLayout, rowPositions, h1]
  | [a, b], y, m => by
    obtain ⟨wa, ha⟩ := a; obtain ⟨wb, hb⟩ := b
    have h1 : (4 * m + 1) % 4 = 1 := by omega
    have h2 : (4 * m + 1 + 1) % 4 = 2 := by omega
    simp [layoutAux, specLayout, rowPositions, h1, h2]
  | [a, b, c], y, m => by
    obtain ⟨wa, ha⟩ := a; obtain ⟨wb, hb⟩ := b; obtain ⟨wc, hc⟩ := c
    have h1 : (4 * m + 1) % 4 = 1 := by omega
    have h2 : (4 * m + 1 + 1) % 4 = 2 := by omega
    have h3 : (4 * m + 1 + 1 + 1) % 4 = 3 := by omega
    simp [layoutAux, specLayout, rowPositions, h1, h2, h3]
  | a :: b :: c :: d :: rest, y, m => by
    obtain ⟨wa, ha⟩ := a; obtain ⟨wb, hb⟩ := b
    obtain ⟨wc, hc⟩ := c; obtain ⟨wd, hd⟩ := d
    have h1 : (4 * m + 1) % 4 = 1 := by omega
    have h2 : (4 * m + 1 + 1) % 4 = 2 := by omega
    have h3 : (4 * m + 1 + 1 + 1) % 4 = 3 := by omega
    have h4 : (4 * m + 1 + 1 + 1 + 1) % 4 = 0 := by omega
    have h5 : 4 * m + 1 + 1 + 1 + 1 = 4 * (m + 1) := by omega
    have ih := layoutAux_eq_specLayout rest
      (y + rowHeight [(wa, ha), (wb, hb), (wc, hc), (wd, hd)] + 10) (m + 1)
    simp only [layoutAux, h1, h2, h3, h4, h5, if_pos, if_neg, rowHeight,
      List.foldl] at ih ⊢
    simp only [specLayout, List.take, List.drop, rowPositions, rowHeight,
      List.foldl]
    simp [ih]
  termination_by sizes _ _ => sizes.length

/-- **C6.** The grid auto-layout positions all tracked items (insertion
order, row-major, `columns = 4`, `spacing = 10`, row height the maximum
bounding-box height of the items placed in the row, `x` reset to 0 and
`y` advanced by row height + spacing after every 4 items) exactly as the
reference algorithm; in particular four 100×50 items receive positions
`(0,0), (110,0), (220,0), (330,0)` and a fifth receives `(0, 60)`. -/
theorem c6_grid_layout :
    (∀ sizes : List (ℚ × ℚ), layoutImages 4 sizes = specLayout sizes 0) ∧
    layoutImages 4 (List.replicate 5 (100, 50))
      = [(0, 0), (110, 0), (220, 0), (330, 0), (0, 60)] := by
  constructor
  · intro sizes
    simpa using layoutAux_eq_specLayout sizes 0 0
  · norm_num [layoutImages, layoutAux, List.replicate]

/-! ## Board persistence (`CoffeeBoard.save_board`, `CoffeeBoard.load_board`)

Path strings are modelled opaquely; `os.path.join` is string
concatenation with a separator, `os.path.dirname` / `os.path.basename` /
`os.path.splitext` are split on the separator / last dot.  The
filesystem (`os.path.exists`), the pixmap write (`QPixmap.save` inside
its `try`), the copy (`shutil.copy2`), `os.path.relpath` and the
`time.strftime` timestamp are parameters in a `SaveEnv`. -/

/-- The persistent state of an `ImageDisplay` item: `path` (a file path
or the `"clipboard_image"` marker), `layer`, the scene position set by
`setPos`, the stored `current_scale`, and the z-value. -/
structure Item where
  path : String
  layer : String
  pos : ℚ × ℚ
  current_scale : ℚ
  z : ℚ
  deriving Repr, DecidableEq

/-- One record of the JSON board document, as written by `save_board`:
the `path` field holds the relative path when one was computed and
truthy, otherwise the absolute path (so `""` encodes "no usable
path"). -/
structure ImageRecord where
  path : String
  absolute_path : String
  position : ℚ × ℚ
  scale : ℚ
  z_value : ℚ
  layer : String
  deriving Repr, DecidableEq

/-- `os.path.join` for a directory and a relative member. -/
def pathJoin (a b : String) : String := a ++ "/" ++ b

/-- The path separator and extension dot. -/
def sepChar : Char := Char.ofNat 47

def dotChar : Char := Char.ofNat 46

/-- Split a character list on a separator character. -/
def splitOnCharAux (c : Char) : List Char → List Char → List (List Char)
  | [], acc => [acc.reverse]
  | x :: xs, acc =>
    if x = c then acc.reverse :: splitOnCharAux c xs []
    else splitOnCharAux c xs (x :: acc)

def splitOnChar (c : Char) (l : List Char) : List (List Char) :=
  splitOnCharAux c l []

/-- Join character lists with a separator character. -/
def joinChar (c : Char) : List (List Char) → List Char
  | [] => []
  | [x] => x
  | x :: xs => x ++ c :: joinChar c xs

/-- `os.path.dirname`. -/
def dirname (p : String) : String :=
  let parts := splitOnChar (sepChar) p.data
  if parts.length ≤ 1 then "" else ⟨joinChar (sepChar) parts.dropLast⟩

/-- `os.path.basename`. -/
def basename (p : String) : String :=
  ⟨(splitOnChar (sepChar) p.data).getLastD p.data⟩

/-- `os.path.splitext` on a file name holding a dot-separated
extension. -/
def splitExt (name : String) : String × String :=
  let parts := splitOnChar (dotChar) name.data
  if parts.length ≤ 1 then (name, "")
  else (⟨joinChar (dotChar) parts.dropLast⟩,
    ⟨dotChar :: parts.getLastD []⟩)

/-- The clipboard-save choice returned by
`_prompt_clipboard_save_choice` (or forced by `consolidate=True`):
`noSpecial` is the `'None'` result for a board without clipboard
images. -/
inductive SaveAction
  | consolidateAll
  | consolidateClipboardOnly
  | ignoreClipboard
  | noSpecial
  deriving Repr, DecidableEq

/-- `will_consolidate_any` (coffee_board.py line 1053). -/
def willConsolidateAny : SaveAction → Bool
  | .consolidateAll => true
  | .consolidateClipboardOnly => true
  | _ => false

/-- Host/filesystem effects consumed by `save_board`. -/
structure SaveEnv where
  /-- `os.path.exists` (used by the unique-name loop). -/
  ex : String → Bool
  /-- whether `item.original_pixmap.save(path, PNG)` completes without
  raising (the source's `try` around the clipboard write). -/
  writeOk : String → Bool
  /-- whether `shutil.copy2(src, dst)` completes without raising, per
  destination path (a failure aborts the whole save). -/
  copyOk : String → Bool
  /-- `os.path.relpath(path, save_dir)`, `none` when it raises (e.g.
  different drive). -/
  relpath : String → String → Option String
  /-- the `time.strftime` timestamp baked into clipboard file names. -/
  ts : String
  /-- bound on the unique-name `while` loop (the source loops until a
  free name is found; any bound covering the collisions is faithful). -/
  fuel : ℕ

/-- The `while os.path.exists(new_image_path)` loop of the
`Consolidate_All` branch (coffee_board.py lines 1095-1101): append
`_1`, `_2`, … to the stem until the name is free in the folder. -/
def uniqueName (ex : String → Bool) (folder base ext : String) :
    ℕ → String → ℕ → String
  | 0, fname, _ => fname
  | fuel + 1, fname, counter =>
    if ex (pathJoin folder fname) then
      uniqueName ex folder base ext fuel
        (base ++ "_" ++ toString counter ++ ext) (counter + 1)
    else fname

/-- Build the JSON record for one item: `path` is
`rel_path if rel_path else abs_path`, the metadata is copied from the
item (coffee_board.py lines 1114-1123). -/
def mkRecord (relP : Option String) (absP : String) (item : Item) : ImageRecord :=
  { path := match relP with
      | some s => if s = "" then absP else s
      | none => absP
    absolute_path := absP
    position := item.pos
    scale := item.current_scale
    z_value := item.z
    layer := item.layer }

/-- One iteration of the `save_board` item loop (coffee_board.py lines
1065-1123).  Returns the emitted record (if any), the new clipboard
counter, and the increment of `copied_count`; a `shutil.copy2` failure
raises out of the loop (`Except.error`). -/
def saveItem (env : SaveEnv) (saveDir baseName imagesFolder : String)
    (action : SaveAction) (item : Item) (clipCounter : ℕ) :
    Except String (Option ImageRecord × ℕ × ℕ) :=
  if item.path = "clipboard_image" then
    if willConsolidateAny action = false then
      -- not consolidating: skip the item entirely
      .ok (none, clipCounter, 0)
    else
      -- clipboard_counter += 1 happens before the write attempt
      let c := clipCounter + 1
      let filename :=
        "clipboard_image_" ++ env.ts ++ "_" ++ toString c ++ ".png"
      let newPath := pathJoin imagesFolder filename
      if env.writeOk newPath then
        .ok (some (mkRecord (some (pathJoin (baseName ++ "_images") filename))
          newPath item), c, 1)
      else
        -- write failed: fallback empty entry, record still emitted
        .ok (some (mkRecord none "" item), c, 0)
  else
    if action = SaveAction.consolidateAll then
      let fname0 := basename item.path
      let be := splitExt fname0
      let fname := uniqueName env.ex imagesFolder be.1 be.2 env.fuel fname0 1
      let newPath := pathJoin imagesFolder fname
      if env.copyOk newPath then
        .ok (some (mkRecord (some (pathJoin (baseName ++ "_images") fname))
          newPath item), clipCounter, 1)
      else
        .error ("copy failed: " ++ item.path)
    else
      .ok (some (mkRecord (env.relpath item.path saveDir) item.path item),
        clipCounter, 0)

/-- The `save_board` item loop over the whole item list, threading the
clipboard counter and `copied_count` and collecting
`board_data["images"]` in order. -/
def saveLoop (env : SaveEnv) (saveDir baseName imagesFolder : String)
    (action : SaveAction) :
    List Item → ℕ → ℕ → Except String (List ImageRecord × ℕ × ℕ)
  | [], c, cp => .ok ([], c, cp)
  | it :: rest, c, cp =>
    match saveItem env saveDir baseName imagesFolder action it c with
    | .error e => .error e
    | .ok (rec?, c2, d) =>
      match saveLoop env saveDir baseName imagesFolder action rest c2 (cp + d) with
      | .error e => .error e
      | .ok (recs, c3, cp3) => .ok (rec?.toList ++ recs, c3, cp3)

/-- The canvas state touched by `load_board`: the tracked item list
(which mirrors the scene's `ImageDisplay` contents, see
`c10_tracking_invariant`), the remembered document path, and the
view-update suspension flag. -/
structure CanvasSt where
  imageItems : List Item
  currentSavePath : Option String
  updatesEnabled : Bool
  deriving Repr, DecidableEq

/-- Path resolution for one record (coffee_board.py lines 1200-1211):
try the `path` field (when truthy) joined with the document's directory;
fall back to `absolute_path` (when truthy); `none` when neither names an
existing file. -/
def resolveRecord (ex : String → Bool) (loadDir : String)
    (r : ImageRecord) : Option String :=
  let viaRel : Option String :=
    if r.path ≠ "" then
      if ex (pathJoin loadDir r.path) then some (pathJoin loadDir r.path)
      else none
    else none
  match viaRel with
  | some p => some p
  | none =>
    if r.absolute_path ≠ "" then
      if ex r.absolute_path then some r.absolute_path else none
    else none

/-- `resize_image` on a persistent item: stores the scale (the visual
rescale is display-only). -/
def resizeItem (it : Item) (scale : ℚ) : Item :=
  { it with current_scale := scale }

/-- The item constructed and restored for one resolved record
(coffee_board.py lines 1213-1231): `ImageDisplay(image_path, layer,
preview_format)` (which never raises for a string source —
`_load_image_data` falls back to a placeholder pixmap), then `setPos`,
`resize_image(scale)`, `setZValue`. -/
def loadItem (imagePath : String) (r : ImageRecord) : Item :=
  let it0 : Item :=
    { path := imagePath, layer := r.layer, pos := (0, 0)
      current_scale := 1, z := 0 }
  let it1 := { it0 with pos := r.position }
  let it2 := resizeItem it1 r.scale
  { it2 with z := r.z_value }

/-- The `load_board` record loop (coffee_board.py lines 1189-1239):
check cancellation between records, resolve each record's path, create
and restore the item on success, and accumulate unresolved records'
display names into `missing_images`.  Returns the loaded items and the
missing list, both in document order. -/
def loadLoop (ex : String → Bool) (cancel : ℕ → Bool) (loadDir : String) :
    List ImageRecord → ℕ → List Item × List String
  | [], _ => ([], [])
  | r :: rest, idx =>
    if cancel idx then ([], [])
    else
      match resolveRecord ex loadDir r with
      | some p =>
        let pr := loadLoop ex cancel loadDir rest (idx + 1)
        (loadItem p r :: pr.1, pr.2)
      | none =>
        let pr := loadLoop ex cancel loadDir rest (idx + 1)
        (pr.1, (if r.path ≠ "" then r.path else r.absolute_path) :: pr.2)

/-- `CoffeeBoard.load_board` (coffee_board.py lines 1136-1277) after the
file prompt, given the JSON parse outcome (`none` = `json.load` raised).
On parse failure the handler only reports and re-enables updates: the
item list and save path are untouched (the clear runs only after a
successful parse).  On success: clear all items, suspend updates, run
the record loop, re-enable updates, remember the document path.  Returns
the new state and the missing-images report. -/
def loadBoard (ex : String → Bool) (cancel : ℕ → Bool) (filePath : String)
    (parsed : Option (List ImageRecord)) (st : CanvasSt) :
    CanvasSt × List String :=
  match parsed with
  | none => ({ st with updatesEnabled := true }, [])
  | some records =>
    let st1 : CanvasSt := { st with imageItems := [] }
    let st2 : CanvasSt := { st1 with updatesEnabled := false }
    let loadDir := dirname filePath
    let pr := loadLoop ex cancel loadDir records 0
    ({ st2 with
        imageItems := pr.1
        updatesEnabled := true
        currentSavePath := some filePath }, pr.2)

/-- The serialized metadata of an item: `(position, scale, z, layer)`. -/
def itemFields (it : Item) : (ℚ × ℚ) × ℚ × ℚ × String :=
  (it.pos, it.current_scale, it.z, it.layer)

/-- The metadata carried by a record: `(position, scale, z_value, layer)`. -/
def recFields (r : ImageRecord) : (ℚ × ℚ) × ℚ × ℚ × String :=
  (r.position, r.scale, r.z_value, r.layer)

theorem recFields_mkRecord (relP : Option String) (absP : String) (it : Item) :
    recFields (mkRecord relP absP it) = itemFields it := rfl

/-- Under `Consolidate_All`, every item — clipboard or path-backed,
write success or failure — emits exactly one record carrying the item's
metadata. -/
theorem saveItem_consolidateAll_fields (env : SaveEnv)
    (saveDir baseName imagesFolder : String) (it : Item) (c : ℕ)
    (rec? : Option ImageRecord) (c2 d : ℕ)
    (h : saveItem env saveDir baseName imagesFolder .consolidateAll it c
        = .ok (rec?, c2, d)) :
    ∃ rec, rec? = some rec ∧ recFields rec = itemFields it := by
  simp only [saveItem, willConsolidateAny, Bool.true_eq_false, if_false,
    reduceIte] at h
  split_ifs at h <;>
    (injection h with h2
     injection h2 with h3 h4
     exact ⟨_, h3.symm, recFields_mkRecord _ _ _⟩)

theorem saveLoop_consolidateAll_fields (env : SaveEnv)
    (saveDir baseName imagesFolder : String) :
    ∀ (items : List Item) (c cp : ℕ) (recs : List ImageRecord) (c2 cp2 : ℕ),
      saveLoop env saveDir baseName imagesFolder .consolidateAll items c cp
          = .ok (recs, c2, cp2) →
      recs.map recFields = items.map itemFields := by
  intro items
  induction items with
  | nil =>
    intro c cp recs c2 cp2 h
    simp only [saveLoop, Except.ok.injEq, Prod.mk.injEq] at h
    simp [← h.1]
  | cons it rest ih =>
    intro c cp recs c2 cp2 h
    rcases hsi : saveItem env saveDir baseName imagesFolder .consolidateAll it c
      with e | ⟨rec?, c3, d⟩
    · simp only [saveLoop, hsi, reduceCtorEq] at h
    · rcases hsl : saveLoop env saveDir baseName imagesFolder .consolidateAll
          rest c3 (cp + d) with e | ⟨recs2, c4, cp4⟩
      · simp only [saveLoop, hsi, hsl, reduceCtorEq] at h
      · simp only [saveLoop, hsi, hsl, Except.ok.injEq, Prod.mk.injEq] at h
        obtain ⟨rec, hr, hf⟩ := saveItem_consolidateAll_fields env saveDir
          baseName imagesFolder it c rec? c3 d hsi
        subst hr
        rw [← h.1]
        simp only [Option.toList_some, List.singleton_append, List.map_cons,
          List.cons.injEq]
        exact ⟨hf, ih c3 (cp + d) recs2 c4 cp4 hsl⟩

theorem itemFields_loadItem (p : String) (r : ImageRecord) :
    itemFields (loadItem p r) = recFields r := rfl

theorem map_get_of_map_eq {α β : Type _} (f : α → β) :
    ∀ (l1 l2 : List α), l1.map f = l2.map f →
      ∀ (i : ℕ) (h1 : i < l1.length) (h2 : i < l2.length),
        f (l1.get ⟨i, h1⟩) = f (l2.get ⟨i, h2⟩) := by
  intro l1
  induction l1 with
  | nil => intro l2 h i h1 h2; simp at h1
  | cons a l ih =>
    intro l2 h i h1 h2
    cases l2 with
    | nil => simp at h
    | cons b l2t =>
      simp only [List.map_cons, List.cons.injEq] at h
      cases i with
      | zero => simpa using h.1
      | succ n =>
        exact ih l2t h.2 n (by simpa using h1) (by simpa using h2)

/-- When every record resolves and the load is never cancelled, the
record loop loads all records in order (metadata copied) and reports
nothing missing. -/
theorem loadLoop_all_resolved (ex : String → Bool) (loadDir : String) :
    ∀ (recs : List ImageRecord) (idx : ℕ),
      (∀ r ∈ recs, (resolveRecord ex loadDir r).isSome) →
      (loadLoop ex (fun _ => false) loadDir recs idx).1.map itemFields
          = recs.map recFields ∧
        (loadLoop ex (fun _ => false) loadDir recs idx).2 = [] := by
  intro recs
  induction recs with
  | nil => intro idx _; simp [loadLoop]
  | cons r rest ih =>
    intro idx hres
    simp only [loadLoop]
    rcases hr : resolveRecord ex loadDir r with _ | p
    · exact absurd (hres r (by simp)) (by simp [hr])
    · have hrest := ih (idx + 1) (fun r2 hr2 => hres r2 (by simp [hr2]))
      simp [hr, itemFields_loadItem, hrest.1, hrest.2]

/-- **C1.** For a board saved with `Consolidate_All` (the save
succeeding, i.e. all items path-backed with successful copies or
clipboard items successfully consolidated — a failed clipboard write
would leave an unresolvable `""` record), loading the produced document
with every recorded asset path resolvable from the document's directory
and no user cancellation reconstructs an item list of the same length
and order, where the i-th loaded item's position, scale, z-value and
layer equal those of the i-th saved item. -/
theorem c1_round_trip (env : SaveEnv) (saveDir baseName imagesFolder : String)
    (items : List Item) (recs : List ImageRecord) (c cp : ℕ)
    (ex : String → Bool) (filePath : String) (st : CanvasSt)
    (hsave : saveLoop env saveDir baseName imagesFolder .consolidateAll
        items 0 0 = .ok (recs, c, cp))
    (hres : ∀ r ∈ recs, (resolveRecord ex (dirname filePath) r).isSome) :
    (loadBoard ex (fun _ => false) filePath (some recs) st).1.imageItems.length
        = items.length ∧
    ∀ (i : ℕ)
      (hi : i < (loadBoard ex (fun _ => false) filePath (some recs)
        st).1.imageItems.length) (hi2 : i < items.length),
      (((loadBoard ex (fun _ => false) filePath (some recs)
          st).1.imageItems.get ⟨i, hi⟩).pos = (items.get ⟨i, hi2⟩).pos ∧
        ((loadBoard ex (fun _ => false) filePath (some recs)
          st).1.imageItems.get ⟨i, hi⟩).current_scale
            = (items.get ⟨i, hi2⟩).current_scale) ∧
      ((loadBoard ex (fun _ => false) filePath (some recs)
          st).1.imageItems.get ⟨i, hi⟩).z = (items.get ⟨i, hi2⟩).z ∧
      ((loadBoard ex (fun _ => false) filePath (some recs)
          st).1.imageItems.get ⟨i, hi⟩).layer = (items.get ⟨i, hi2⟩).layer := by
  have hload := loadLoop_all_resolved ex (dirname filePath) recs 0 hres
  have hsavef := saveLoop_consolidateAll_fields env saveDir baseName
    imagesFolder items 0 0 recs c cp hsave
  have hitems : (loadBoard ex (fun _ => false) filePath (some recs)
      st).1.imageItems = (loadLoop ex (fun _ => false) (dirname filePath)
      recs 0).1 := by
    simp [loadBoard]
  have hmap : (loadBoard ex (fun _ => false) filePath (some recs)
      st).1.imageItems.map itemFields = items.map itemFields := by
    rw [hitems, hload.1, hsavef]
  have hlen : (loadBoard ex (fun _ => false) filePath (some recs)
      st).1.imageItems.length = items.length := by
    have := congrArg List.length hmap
    simpa using this
  refine ⟨hlen, fun i hi hi2 => ?_⟩
  have hg := map_get_of_map_eq itemFields
    (loadBoard ex (fun _ => false) filePath (some recs) st).1.imageItems
    items hmap i hi hi2
  simp only [itemFields, Prod.mk.injEq] at hg
  exact ⟨⟨hg.1, hg.2.1⟩, hg.2.2.1, hg.2.2.2⟩

/-- A save environment for concrete runs: empty filesystem, writes and
copies succeed. -/
def envW : SaveEnv :=
  { ex := fun _ => false, writeOk := fun _ => true, copyOk := fun _ => true,
    relpath := fun _ _ => none, ts := "T", fuel := 3 }

/-- A clipboard-origin item with distinctive metadata. -/
def clipItemW : Item :=
  { path := "clipboard_image", layer := "rgba", pos := (1, 2),
    current_scale := 3/2, z := 5 }

/-- The record `save_board` emits for `clipItemW` under `envW`. -/
def recsW : List ImageRecord :=
  [{ path := "b_images/clipboard_image_T_1.png",
     absolute_path := "/b/b_images/clipboard_image_T_1.png",
     position := (1, 2), scale := 3/2, z_value := 5, layer := "rgba" }]

/-- An empty canvas. -/
def st0 : CanvasSt :=
  { imageItems := [], currentSavePath := none, updatesEnabled := true }

theorem c1_round_trip_witness :
    saveLoop envW "/b" "b" "/b/b_images" .consolidateAll [clipItemW] 0 0
        = .ok (recsW, 1, 1) ∧
    (∀ r ∈ recsW, (resolveRecord (fun _ => true) (dirname "/b/b.json") r).isSome) ∧
    (loadBoard (fun _ => true) (fun _ => false) "/b/b.json" (some recsW)
        st0).1.imageItems.length = 1 := by
  have hsave : saveLoop envW "/b" "b" "/b/b_images" .consolidateAll
      [clipItemW] 0 0 = .ok (recsW, 1, 1) := by rfl
  have hres : ∀ r ∈ recsW,
      (resolveRecord (fun _ => true) (dirname "/b/b.json") r).isSome := by decide
  refine ⟨hsave, hres, ?_⟩
  simpa using (c1_round_trip envW "/b" "b" "/b/b_images" [clipItemW] recsW 1 1
    (fun _ => true) "/b/b.json" st0 hsave hres).1

/-- **C7.** If `load_board` is given a document that fails to parse as
JSON, it makes no change to the canvas: the item list (which is also the
scene's `ImageDisplay` content, see `c10_tracking_invariant`) and the
current document path are exactly as before, and nothing is reported
missing — the clear of existing items happens only after a successful
parse. -/
theorem c7_parse_failure_no_change (ex : String → Bool) (cancel : ℕ → Bool)
    (filePath : String) (st : CanvasSt) :
    (loadBoard ex cancel filePath none st).1.imageItems = st.imageItems ∧
    (loadBoard ex cancel filePath none st).1.currentSavePath
        = st.currentSavePath ∧
    (loadBoard ex cancel filePath none st).2 = [] := by
  simp [loadBoard]

theorem length_filter_add_length_filter_not {α : Type _} (p : α → Bool) :
    ∀ l : List α,
      (l.filter p).length + (l.filter fun a => !(p a)).length = l.length := by
  intro l
  induction l with
  | nil => simp
  | cons a t ih => by_cases hp : p a <;> simp [hp, ← ih] <;> omega

/-- Without cancellation, the load loop loads exactly the records whose
paths resolve (in order) and reports exactly the others (in order). -/
theorem loadLoop_characterization (ex : String → Bool) (loadDir : String) :
    ∀ (recs : List ImageRecord) (idx : ℕ),
      (loadLoop ex (fun _ => false) loadDir recs idx).1
          = (recs.filter fun r => (resolveRecord ex loadDir r).isSome).map
              (fun r => loadItem ((resolveRecord ex loadDir r).getD "") r) ∧
        (loadLoop ex (fun _ => false) loadDir recs idx).2
          = (recs.filter fun r => (resolveRecord ex loadDir r).isNone).map
              (fun r => if r.path ≠ "" then r.path else r.absolute_path) := by
  intro recs
  induction recs with
  | nil => intro idx; simp [loadLoop]
  | cons r rest ih =>
    intro idx
    have h2 := ih (idx + 1)
    rcases hr : resolveRecord ex loadDir r with _ | p <;>
      simp [loadLoop, hr, h2.1, h2.2]

/-- **C8.** Records whose relative path (joined with the document's
directory) and absolute path both fail to resolve are skipped and
accumulated into the missing report, while all other records are loaded
(an `ImageDisplay` construction never raises for a string source); in
particular a three-record document with exactly one unresolvable record
yields exactly 2 loaded items and a missing report of length 1, and the
load does not fail as a whole. -/
theorem c8_missing_file_tolerance :
    (∀ (ex : String → Bool) (loadDir : String) (recs : List ImageRecord),
        (loadLoop ex (fun _ => false) loadDir recs 0).1
            = (recs.filter fun r => (resolveRecord ex loadDir r).isSome).map
                (fun r => loadItem ((resolveRecord ex loadDir r).getD "") r) ∧
          (loadLoop ex (fun _ => false) loadDir recs 0).2
            = (recs.filter fun r => (resolveRecord ex loadDir r).isNone).map
                (fun r => if r.path ≠ "" then r.path else r.absolute_path)) ∧
    (∀ (ex : String → Bool) (filePath : String) (st : CanvasSt)
        (recs : List ImageRecord),
        recs.length = 3 →
        (recs.filter fun r =>
          (resolveRecord ex (dirname filePath) r).isNone).length = 1 →
        (loadBoard ex (fun _ => false) filePath (some recs)
            st).1.imageItems.length = 2 ∧
          (loadBoard ex (fun _ => false) filePath (some recs)
            st).2.length = 1) := by
  refine ⟨fun ex loadDir recs => loadLoop_characterization ex loadDir recs 0, ?_⟩
  intro ex filePath st recs h3 h1
  have hc := loadLoop_characterization ex (dirname filePath) recs 0
  have hnot : (recs.filter fun r =>
      !((resolveRecord ex (dirname filePath) r).isSome)).length = 1 := by
    simp only [Option.bnot_isSome]
    exact h1
  have hsum := length_filter_add_length_filter_not
    (fun r => (resolveRecord ex (dirname filePath) r).isSome) recs
  rw [hnot, h3] at hsum
  constructor
  · have : (loadBoard ex (fun _ => false) filePath (some recs)
        st).1.imageItems = (loadLoop ex (fun _ => false) (dirname filePath)
        recs 0).1 := by simp [loadBoard]
    rw [this, hc.1]
    simpa using hsum
  · have : (loadBoard ex (fun _ => false) filePath (some recs)
        st).2 = (loadLoop ex (fun _ => false) (dirname filePath) recs 0).2 := by
      simp [loadBoard]
    rw [this, hc.2]
    simpa using h1

/-- A filesystem in which every path except `"missingA"` exists. -/
def exW8 : String → Bool := fun p => !(p == "missingA")

/-- Three absolute-path records of which exactly the second is
unresolvable under `exW8`. -/
def recsW8 : List ImageRecord :=
  [{ path := "", absolute_path := "okA", position := (0, 0), scale := 1,
     z_value := 0, layer := "rgba" },
   { path := "", absolute_path := "missingA", position := (0, 0), scale := 1,
     z_value := 0, layer := "rgba" },
   { path := "", absolute_path := "okB", position := (0, 0), scale := 1,
     z_value := 0, layer := "rgba" }]

theorem c8_missing_file_tolerance_witness :
    recsW8.length = 3 ∧
    (recsW8.filter fun r =>
      (resolveRecord exW8 (dirname "/d/b.json") r).isNone).length = 1 ∧
    (loadBoard exW8 (fun _ => false) "/d/b.json" (some recsW8)
        st0).1.imageItems.length = 2 ∧
    (loadBoard exW8 (fun _ => false) "/d/b.json" (some recsW8)
        st0).2.length = 1 := by
  have h3 : recsW8.length = 3 := rfl
  have h1 : (recsW8.filter fun r =>
      (resolveRecord exW8 (dirname "/d/b.json") r).isNone).length = 1 := by
    decide
  have h := c8_missing_file_tolerance.2 exW8 "/d/b.json" st0 recsW8 h3 h1
  exact ⟨h3, h1, h.1, h.2⟩

/-- The save environment of the C2 scenario: the clipboard bitmap write
fails. -/
def c2Env : SaveEnv :=
  { ex := fun _ => false, writeOk := fun _ => false, copyOk := fun _ => true,
    relpath := fun _ _ => none, ts := "T", fuel := 3 }

/-- A clipboard-origin item. -/
def c2Item : Item :=
  { path := "clipboard_image", layer := "rgba", pos := (0, 0),
    current_scale := 1, z := 0 }

/-- **C2 (counterexample).** Consolidating a clipboard item whose bitmap
write fails: the emitted fallback record is as claimed, but the clipboard
counter returned is `1` — it was incremented from `0` *despite* the
failed write (the source increments `clipboard_counter` before
attempting the write), refuting "the counter increments only when the
bitmap write succeeds". -/
theorem c2_counterexample :
    c2Env.writeOk (pathJoin "/b/b_images"
        ("clipboard_image_" ++ c2Env.ts ++ "_" ++ toString (0 + 1) ++ ".png"))
      = false ∧
    saveItem c2Env "/b" "b" "/b/b_images" .consolidateAll c2Item 0
      = .ok (some (mkRecord none "" c2Item), 1, 0) ∧
    ¬ saveItem c2Env "/b" "b" "/b/b_images" .consolidateAll c2Item 0
      = .ok (some (mkRecord none "" c2Item), 0, 0) := by
  refine ⟨rfl, rfl, fun h => ?_⟩
  have h0 := (rfl : saveItem c2Env "/b" "b" "/b/b_images" .consolidateAll
    c2Item 0 = .ok (some (mkRecord none "" c2Item), 1, 0)).symm.trans h
  injection h0 with h3
  injection h3 with h4 h5
  simp at h5

/-- **C2 (amended).** During `save_board`, consolidating an ephemeral
(clipboard-origin) item increments the filename counter on every attempt
regardless of write success — only `copied_count` increments solely on
success — and on a write failure the item's record is still emitted,
with `absolute_path = ""` and a null relative path (serialized `path`
field `""`), never silently dropped. -/
theorem c2_clipboard_emission (env : SaveEnv)
    (saveDir baseName imagesFolder : String) (act : SaveAction) (item : Item)
    (c : ℕ) (hclip : item.path = "clipboard_image")
    (hcons : willConsolidateAny act = true) :
    saveItem env saveDir baseName imagesFolder act item c
        = .ok (some (if env.writeOk (pathJoin imagesFolder
              ("clipboard_image_" ++ env.ts ++ "_" ++ toString (c + 1) ++ ".png"))
            then mkRecord (some (pathJoin (baseName ++ "_images")
              ("clipboard_image_" ++ env.ts ++ "_" ++ toString (c + 1) ++ ".png")))
              (pathJoin imagesFolder
                ("clipboard_image_" ++ env.ts ++ "_" ++ toString (c + 1) ++ ".png"))
              item
            else mkRecord none "" item),
          c + 1,
          if env.writeOk (pathJoin imagesFolder
              ("clipboard_image_" ++ env.ts ++ "_" ++ toString (c + 1) ++ ".png"))
            then 1 else 0) ∧
    (mkRecord none "" item).absolute_path = "" ∧
    (mkRecord none "" item).path = "" := by
  refine ⟨?_, rfl, rfl⟩
  simp only [saveItem, hclip, hcons, Bool.true_eq_false, if_false, reduceIte]
  split_ifs <;> rfl

theorem c2_clipboard_emission_witness :
    c2Item.path = "clipboard_image" ∧
    willConsolidateAny .consolidateClipboardOnly = true ∧
    saveItem c2Env "/b" "b" "/b/b_images" .consolidateClipboardOnly c2Item 0
      = .ok (some (mkRecord none "" c2Item), 1, 0) := by
  have h := c2_clipboard_emission c2Env "/b" "b" "/b/b_images"
    .consolidateClipboardOnly c2Item 0 rfl rfl
  refine ⟨rfl, rfl, ?_⟩
  have hw : c2Env.writeOk (pathJoin "/b/b_images"
      ("clipboard_image_" ++ c2Env.ts ++ "_" ++ toString (0 + 1) ++ ".png"))
      = false := rfl
  rw [h.1, hw]
  norm_num

/-! ## Batch import (`CoffeeBoard.dropEvent`) -/

/-- Lower-case an ASCII letter (`.lower()` on extension characters). -/
def lowerChar (ch : Char) : Char :=
  if 65 <= ch.toNat && ch.toNat <= 90 then Char.ofNat (ch.toNat + 32) else ch

def lowerStr (str : String) : String := ⟨str.data.map lowerChar⟩

/-- `os.path.splitext(path)[1].lower()` (coffee_board.py line 222). -/
def fileExt (p : String) : String := lowerStr (splitExt (basename p)).2

/-- The extension filter of `dropEvent` (coffee_board.py line 223). -/
def supportedExts : List String :=
  [".jpg", ".jpeg", ".png", ".tif", ".tiff", ".bmp", ".exr"]

def isSupported (p : String) : Bool := supportedExts.contains (fileExt p)

/-- The canvas state touched by `dropEvent`: the tracked item list (as
the imported source paths, in import order) and the view-update
suspension flag (`setUpdatesEnabled`). -/
structure BoardSt where
  imageItems : List String
  updatesEnabled : Bool
  deriving Repr, DecidableEq

/-- The per-file import loop of `dropEvent` (coffee_board.py lines
252-294): before each file the progress task's cancellation flag is
checked and the loop `break`s if raised; otherwise the file is imported
with `add_image` and counted on success.  `cancel idx` is
`progress.isCancelled()` at iteration `idx`; `ok p` abstracts whether
`add_image p` completes without raising (a per-file exception, or a
cancelled per-file EXR layer prompt, leaves the loop running and the
item unadded).  Returns the successfully added files in order. -/
def dropLoop (cancel : ℕ → Bool) (ok : String → Bool) :
    List String → ℕ → List String
  | [], _ => []
  | p :: rest, idx =>
    if cancel idx then []
    else if ok p then p :: dropLoop cancel ok rest (idx + 1)
    else dropLoop cancel ok rest (idx + 1)

/-- `CoffeeBoard.dropEvent` (coffee_board.py lines 201-314): filter the
dropped files by extension, bail out if none remain, suspend rendering
updates when more than 10 files are to be loaded, run the import loop,
and — in the `finally` block, on every exit path — re-enable updates
under the same size condition. -/
def dropEvent (cancel : ℕ → Bool) (ok : String → Bool) (urls : List String)
    (st : BoardSt) : BoardSt :=
  let files_to_load := urls.filter isSupported
  if files_to_load.isEmpty then st
  else
    let total := files_to_load.length
    let st1 := if 10 < total then { st with updatesEnabled := false } else st
    let added := dropLoop cancel ok files_to_load 0
    let st2 := { st1 with imageItems := st1.imageItems ++ added }
    if 10 < total then { st2 with updatesEnabled := true } else st2

/-- With the cancellation flag raised from iteration `k` on and every
file import succeeding, the loop adds exactly the first
`min (k - idx) files.length` files. -/
theorem dropLoop_cancel_after (ok : String → Bool) (k : ℕ) :
    ∀ (files : List String) (idx : ℕ),
      (∀ p ∈ files, ok p = true) →
      (dropLoop (fun i => decide (k ≤ i)) ok files idx).length
        = min (k - idx) files.length := by
  intro files
  induction files with
  | nil => intro idx _; simp [dropLoop]
  | cons p rest ih =>
    intro idx h
    by_cases hc : k ≤ idx
    · have hz : k - idx = 0 := by omega
      simp [dropLoop, hc, hz]
    · have hok : ok p = true := h p (by simp)
      have hr := ih (idx + 1) (fun q hq => h q (by simp [hq]))
      simp [dropLoop, hc, hok, hr]
      omega

/-- **C9.** When a batch import of `n > 10` supported files (rendering
updates suspended) has its cancellation flag raised after `k` files have
been successfully imported, the import stops at the next between-items
check leaving exactly `k` new items on the canvas (no rollback), and
rendering updates are re-enabled on that exit path — as on every exit
path of the batch (final conjunct, for arbitrary cancellation and any
file import outcomes). -/
theorem c9_cancellation_mid_batch (urls : List String) (ok : String → Bool)
    (k : ℕ) (st : BoardSt)
    (hsupp : ∀ p ∈ urls, isSupported p = true)
    (hok : ∀ p ∈ urls, ok p = true)
    (hbig : 10 < urls.length) (hk : k ≤ urls.length) :
    (dropEvent (fun i => decide (k ≤ i)) ok urls st).imageItems.length
        = st.imageItems.length + k ∧
    (dropEvent (fun i => decide (k ≤ i)) ok urls st).updatesEnabled = true ∧
    (∀ (cancel : ℕ → Bool) (ok2 : String → Bool),
      (dropEvent cancel ok2 urls st).updatesEnabled = true) := by
  have hfilter : urls.filter isSupported = urls := by
    rw [List.filter_eq_self]
    exact hsupp
  have hne2 : urls ≠ [] := by
    intro hnil
    rw [hnil] at hbig
    simp at hbig
  have hlen := dropLoop_cancel_after ok k urls 0 hok
  have hmin : min (k - 0) urls.length = k := by omega
  rw [hmin] at hlen
  refine ⟨?_, ?_, ?_⟩
  · simp [dropEvent, hfilter, hne2, hbig, hlen]
  · simp [dropEvent, hfilter, hne2, hbig]
  · intro cancel ok2
    simp [dropEvent, hfilter, hne2, hbig]

/-- Twenty supported files. -/
def urlsW : List String := List.replicate 20 "ref.png"

theorem c9_cancellation_mid_batch_witness :
    (∀ p ∈ urlsW, isSupported p = true) ∧
    (10 : ℕ) < urlsW.length ∧ (5 : ℕ) ≤ urlsW.length ∧
    (dropEvent (fun i => decide (5 ≤ i)) (fun _ => true) urlsW
        ⟨[], true⟩).imageItems.length = 5 ∧
    (dropEvent (fun i => decide (5 ≤ i)) (fun _ => true) urlsW
        ⟨[], true⟩).updatesEnabled = true := by
  have hsupp : ∀ p ∈ urlsW, isSupported p = true := by decide
  have h := c9_cancellation_mid_batch urlsW (fun _ => true) 5 ⟨[], true⟩
    hsupp (fun p _ => rfl) (by decide) (by decide)
  exact ⟨hsupp, by decide, by decide, by simpa using h.1, h.2.1⟩

/-! ## Scene/tracking-list bookkeeping

`image_items` versus the `ImageDisplay` members of the
`QGraphicsScene`.  Items are identified by their object identity,
modelled as a `ℕ` id issued by a counter; the scene is the multiset of
`ImageDisplay` ids it contains (handles and other scene members are
filtered out by the `isinstance` checks in the source and are not
modelled). -/

structure Canvas10 where
  scene : Multiset ℕ
  imageItems : List ℕ
  nextId : ℕ

/-- The tracked list and the scene's `ImageDisplay` members contain
exactly the same items. -/
def tracksScene (c : Canvas10) : Prop :=
  (c.imageItems : Multiset ℕ) = c.scene

/-- `self.scene.addItem(image_item); self.image_items.append(image_item)`
with a freshly constructed `ImageDisplay`. -/
def addFresh (c : Canvas10) : Canvas10 :=
  { scene := c.nextId ::ₘ c.scene
    imageItems := c.imageItems ++ [c.nextId]
    nextId := c.nextId + 1 }

/-- `CoffeeBoard.add_image` (coffee_board.py lines 816-822): `ok` is
false when the path check raises, the EXR layer prompt is cancelled, or
the `ImageDisplay` constructor raises — in all of which neither the
scene nor the list is touched. -/
def add_image10 (ok : Bool) (c : Canvas10) : Canvas10 :=
  if ok then addFresh c else c

/-- `CoffeeBoard.paste_from_clipboard` (coffee_board.py lines 852-863):
adds to scene and list exactly when the clipboard holds an image. -/
def paste10 (hasImage : Bool) (c : Canvas10) : Canvas10 :=
  if hasImage then addFresh c else c

/-- `CoffeeBoard.delete_selected_images` (coffee_board.py lines
944-950): for each selected `ImageDisplay`, remove it from the scene,
and remove it from `image_items` only after the explicit membership
check. -/
def delete_selected10 (sel : List ℕ) (c : Canvas10) : Canvas10 :=
  sel.foldl (fun st i =>
    { st with
        scene := st.scene.erase i
        imageItems := if i ∈ st.imageItems then st.imageItems.erase i
          else st.imageItems }) c

/-- `CoffeeBoard.keyPressEvent` on Delete/Backspace (coffee_board.py
lines 492-498): the same removal loop as `delete_selected_images`. -/
def keyDelete10 (sel : List ℕ) (c : Canvas10) : Canvas10 :=
  sel.foldl (fun st i =>
    { st with
        scene := st.scene.erase i
        imageItems := if i ∈ st.imageItems then st.imageItems.erase i
          else st.imageItems }) c

/-- `CoffeeBoard.clear_all_images` (coffee_board.py lines 960-963):
remove every tracked item from the scene, then clear the list. -/
def clear_all10 (c : Canvas10) : Canvas10 :=
  { scene := c.imageItems.foldl (fun s i => s.erase i) c.scene
    imageItems := []
    nextId := c.nextId }

/-- `CoffeeBoard.load_board` as it touches the scene/list pair: clear
everything, then add one fresh `ImageDisplay` per successfully loaded
record (coffee_board.py lines 1172, 1219-1221). -/
def load_board10 (loadedCount : ℕ) (c : Canvas10) : Canvas10 :=
  (List.range loadedCount).foldl (fun st _ => addFresh st) (clear_all10 c)

theorem tracksScene_addFresh (c : Canvas10) (h : tracksScene c) :
    tracksScene (addFresh c) := by
  unfold tracksScene addFresh at *
  simp only []
  rw [← h]
  exact Multiset.coe_eq_coe.mpr (List.perm_append_singleton _ _)

theorem tracksScene_eraseStep (c : Canvas10) (i : ℕ) (h : tracksScene c) :
    tracksScene
      { c with
          scene := c.scene.erase i
          imageItems := if i ∈ c.imageItems then c.imageItems.erase i
            else c.imageItems } := by
  unfold tracksScene at *
  by_cases hm : i ∈ c.imageItems
  · simp only [hm, if_true]
    rw [← h]
    exact (Multiset.coe_erase c.imageItems i).symm ▸ rfl
  · simp only [hm, if_false]
    rw [← h, Multiset.erase_of_not_mem (by simpa using hm)]

theorem tracksScene_deleteLoop (sel : List ℕ) :
    ∀ (c : Canvas10), tracksScene c →
      tracksScene (delete_selected10 sel c) := by
  induction sel with
  | nil => intro c h; exact h
  | cons i t ih =>
    intro c h
    exact ih _ (tracksScene_eraseStep c i h)

theorem foldl_erase_self :
    ∀ (l : List ℕ),
      l.foldl (fun s i => s.erase i) (l : Multiset ℕ) = 0 := by
  intro l
  induction l with
  | nil => rfl
  | cons a t ih =>
    simp only [List.foldl]
    rw [show ((a :: t : List ℕ) : Multiset ℕ).erase a = (t : Multiset ℕ) by
      rw [← Multiset.cons_coe, Multiset.erase_cons_head]]
    exact ih

theorem tracksScene_clear (c : Canvas10) (h : tracksScene c) :
    tracksScene (clear_all10 c) := by
  unfold tracksScene clear_all10 at *
  simp only [← h]
  exact (foldl_erase_self c.imageItems).symm

/-- **C10.** After every public mutating operation — `add_image`,
`paste_from_clipboard`, `delete_selected_images`, the keyboard delete,
`clear_all_images`, `load_board` — the tracking list `image_items` and
the multiset of `ImageDisplay` items present in the scene contain
exactly the same items: each operation preserves the agreement, so from
the empty initial state the two never diverge. -/
theorem c10_tracking_invariant :
    (∀ (c : Canvas10) (ok : Bool),
        tracksScene c → tracksScene (add_image10 ok c)) ∧
    (∀ (c : Canvas10) (hasImage : Bool),
        tracksScene c → tracksScene (paste10 hasImage c)) ∧
    (∀ (c : Canvas10) (sel : List ℕ),
        tracksScene c → tracksScene (delete_selected10 sel c)) ∧
    (∀ (c : Canvas10) (sel : List ℕ),
        tracksScene c → tracksScene (keyDelete10 sel c)) ∧
    (∀ c : Canvas10, tracksScene c → tracksScene (clear_all10 c)) ∧
    (∀ (c : Canvas10) (n : ℕ),
        tracksScene c → tracksScene (load_board10 n c)) := by
  have hload : ∀ (n : ℕ) (c : Canvas10), tracksScene c →
      tracksScene ((List.range n).foldl (fun st _ => addFresh st) c) := by
    intro n
    induction n with
    | zero => intro c h; simpa using h
    | succ m ih =>
      intro c h
      rw [List.range_succ, List.foldl_append]
      exact tracksScene_addFresh _ (ih c h)
  refine ⟨?_, ?_, ?_, ?_, fun c h => tracksScene_clear c h, ?_⟩
  · intro c ok h
    unfold add_image10
    split
    · exact tracksScene_addFresh c h
    · exact h
  · intro c hasImage h
    unfold paste10
    split
    · exact tracksScene_addFresh c h
    · exact h
  · exact fun c sel h => tracksScene_deleteLoop sel c h
  · exact fun c sel h => tracksScene_deleteLoop sel c h
  · intro c n h
    exact hload n _ (tracksScene_clear c h)

theorem c10_tracking_invariant_witness :
    tracksScene ⟨0, [], 0⟩ ∧
    tracksScene (add_image10 true ⟨0, [], 0⟩) ∧
    tracksScene (delete_selected10 [0] (add_image10 true ⟨0, [], 0⟩)) ∧
    tracksScene (load_board10 2 (paste10 true ⟨0, [], 0⟩)) := by
  have h0 : tracksScene (⟨0, [], 0⟩ : Canvas10) := rfl
  have h1 := c10_tracking_invariant.1 ⟨0, [], 0⟩ true h0
  exact ⟨h0, h1,
    c10_tracking_invariant.2.2.1 _ [0] h1,
    c10_tracking_invariant.2.2.2.2.2 _ 2
      (c10_tracking_invariant.2.1 ⟨0, [], 0⟩ true h0)⟩

end CoffeeBoard
